import Mathlib

/-!
Shallow embedding of `ldsc/parse.py` (LD Score Regression file parsers).

Floating-point columns are modelled by `RVal`: a rational number together
with the IEEE special values `nan`, `inf` and `ninf` (negative infinity).
Comparisons follow IEEE semantics: every comparison with `nan` is `False`.
Integer columns (`N`, `DIR`) are modelled by `Int`, string columns by
`String`.  A dataframe is an association list from column names to typed
columns, preserving column order.  Functions that can raise `ValueError`
or `KeyError` return `Except String`.
-/

set_option linter.unusedVariables false

namespace LdscParse

/-- Value of a float64 column entry: a rational, or one of the IEEE special
values (`nan`, positive infinity, negative infinity). -/
inductive RVal where
  | nan : RVal
  | inf : RVal
  | ninf : RVal
  | val (q : ℚ) : RVal
  deriving DecidableEq, Repr

namespace RVal

/-- Test for `nan`, as `np.isnan` does elementwise. -/
def isNan : RVal → Bool
  | .nan => true
  | _ => false

/-- IEEE `a <= b` as a boolean; any comparison with `nan` is false. -/
def leB : RVal → RVal → Bool
  | .nan, _ => false
  | _, .nan => false
  | .ninf, _ => true
  | _, .inf => true
  | .inf, _ => false
  | _, .ninf => false
  | .val a, .val b => decide (a ≤ b)

/-- IEEE `a < b` as a boolean; any comparison with `nan` is false. -/
def ltB : RVal → RVal → Bool
  | .nan, _ => false
  | _, .nan => false
  | .inf, _ => false
  | _, .inf => true
  | .ninf, .ninf => false
  | .ninf, _ => true
  | _, .ninf => false
  | .val a, .val b => decide (a < b)

/-- IEEE `a > b`. -/
def gtB (a b : RVal) : Bool := ltB b a

/-- IEEE `a >= b`. -/
def geB (a b : RVal) : Bool := leB b a

/-- IEEE division, as numpy performs it on float columns: division by zero
yields a signed infinity (or `nan` for `0/0`) and a warning, not an error. -/
def div : RVal → RVal → RVal
  | .nan, _ => .nan
  | _, .nan => .nan
  | .inf, .inf => .nan
  | .inf, .ninf => .nan
  | .ninf, .inf => .nan
  | .ninf, .ninf => .nan
  | .inf, .val b => if b < 0 then .ninf else .inf
  | .ninf, .val b => if b < 0 then .inf else .ninf
  | .val _, .inf => .val 0
  | .val _, .ninf => .val 0
  | .val a, .val b =>
      if b = 0 then (if 0 < a then .inf else if a < 0 then .ninf else .nan)
      else .val (a / b)

/-- Multiplication of a float value by an integer (the `DIR` column entries). -/
def mulInt : RVal → Int → RVal
  | .nan, _ => .nan
  | .inf, d => if 0 < d then .inf else if d < 0 then .ninf else .nan
  | .ninf, d => if 0 < d then .ninf else if d < 0 then .inf else .nan
  | .val q, d => .val (q * d)

/-- The map `m ↦ 1 - m`, used for the minor-allele-frequency fold. -/
def oneSub : RVal → RVal
  | .nan => .nan
  | .inf => .ninf
  | .ninf => .inf
  | .val q => .val (1 - q)

/-- Binary maximum of two non-`nan` values (`nan` inputs never reach it in
this development because the series functions filter them out first). -/
def max2 (a b : RVal) : RVal := if a.leB b then b else a

/-- Binary minimum of two non-`nan` values. -/
def min2 (a b : RVal) : RVal := if a.leB b then a else b

end RVal

/-- The elementwise `np.fmin`, which prefers the non-`nan` operand. -/
def np_fmin2 : RVal → RVal → RVal
  | .nan, b => b
  | a, .nan => a
  | a, b => if a.leB b then a else b

/-- Elementwise `np.fmin` on two columns, as in `chisq` (parse.py line 153). -/
def np_fmin (a b : List RVal) : List RVal := a.zipWith np_fmin2 b

/-- The `np.sqrt` function on a float column entry.  Its value on nonnegative
rationals is abstracted by the parameter `sqrtQ`, since no claim depends on
the numerics of the square root; the structure on special values is fixed:
`sqrt nan = nan`, `sqrt inf = inf`, and the square root of a negative value
is `nan`. -/
def np_sqrt (sqrtQ : ℚ → RVal) : RVal → RVal
  | .nan => .nan
  | .inf => .inf
  | .ninf => .nan
  | .val q => if q < 0 then .nan else sqrtQ q

/-- The nan-skipping maximum that `np.max` computes when handed a pandas
Series (it delegates to `Series.max`, whose default is `skipna=True`); the
maximum of an empty or all-`nan` series is `nan`. -/
def series_max (l : List RVal) : RVal :=
  match l.filter (fun v => !v.isNan) with
  | [] => .nan
  | x :: xs => xs.foldl RVal.max2 x

/-- The nan-skipping minimum computed by `np.min` on a pandas Series. -/
def series_min (l : List RVal) : RVal :=
  match l.filter (fun v => !v.isNan) with
  | [] => .nan
  | x :: xs => xs.foldl RVal.min2 x

/-- The minimum of an integer Series: `none` models the `nan` that pandas
returns for an empty Series (and `nan < 0` is `False`). -/
def series_min_int : List Int → Option Int
  | [] => none
  | x :: xs => some (xs.foldl min x)

/-- Series.duplicated with `take_last` truthy (parse.py line 57 passes the
string `SNP` in that position): an entry is marked when it occurs again
later in the series.  Only `np.any` of the result is ever used, so the
marking direction does not matter downstream. -/
def series_duplicated : List String → List Bool
  | [] => []
  | x :: xs => (decide (x ∈ xs)) :: series_duplicated xs

/-- Function `check_dir` (parse.py lines 35-44): raise when some entry of the
`DIR` column is neither `+1` nor `-1`. -/
def check_dir (dir : List Int) : Except String Unit :=
  if dir.any (fun d => decide (d ≠ 1) && decide (d ≠ -1)) then
    .error "DIR entry not equal to +/- 1."
  else .ok ()

/-- Function `check_rsid` (parse.py lines 47-58): raise when some rs number
equals the string `.`, then raise when some rs number is duplicated. -/
def check_rsid (rsids : List String) : Except String Unit :=
  if rsids.any (fun s => s == ".") then
    .error "Some SNP identifiers are set to . (a dot)."
  else if (series_duplicated rsids).any id then
    .error "Duplicated SNP identifiers."
  else .ok ()

/-- Function `check_pvalue` (parse.py lines 61-75): raise on a missing
(`nan`) p-value, then on `np.max(P) > 1`, then on `np.min(P) <= 0`. -/
def check_pvalue (P : List RVal) : Except String Unit :=
  if P.any RVal.isNan then .error "Missing P-values"
  else if (series_max P).gtB (.val 1) then .error "P-values cannot be > 1."
  else if (series_min P).leB (.val 0) then .error "P values cannot be <= 0"
  else .ok ()

/-- Function `check_chisq` (parse.py lines 78-91): raise on `nan`, then on
`np.max(chisq) == inf`, then on `np.min(chisq) < 0`. -/
def check_chisq (chisq : List RVal) : Except String Unit :=
  if chisq.any RVal.isNan then .error "Missing chi-square statistics."
  else if series_max chisq = .inf then .error "Infinite chi-square statistics."
  else if (series_min chisq).ltB (.val 0) then .error "Negative chi-square statistics"
  else .ok ()

/-- Function `check_maf` (parse.py lines 94-107): raise on `nan`, then on
`np.max(maf) >= 1`, then on `np.min(maf) <= 0`. -/
def check_maf (maf : List RVal) : Except String Unit :=
  if maf.any RVal.isNan then .error "Missing values in MAF."
  else if (series_max maf).geB (.val 1) then .error "MAF >= 1."
  else if (series_min maf).leB (.val 0) then .error "MAF <= 0."
  else .ok ()

/-- Function `check_N` (parse.py lines 110-117): raise when `np.min(N) < 0`
(for an empty series `np.min` is `nan` and the comparison is false). -/
def check_N (N : List Int) : Except String Unit :=
  match series_min_int N with
  | some m => if m < 0 then .error "Negative N." else .ok ()
  | none => .ok ()

/-- Column names occurring in parse.py.  The source uses strings; the
finitely many names that occur are embedded as constructors (with `other`
for the open-ended LD score columns of `.l2.ldscore` files), which keeps
name comparisons purely structural. -/
inductive ColName where
  | CHR | SNP | CM | BP | P | CHISQ | N | MAF | INFO
  | P1 | P2 | CHISQ1 | CHISQ2 | DIR1 | DIR2 | N1 | N2
  | MAF1 | MAF2 | INFO1 | INFO2 | BETAHAT1 | BETAHAT2
  | keep
  | other (s : String)
  deriving DecidableEq, Repr

/-- A typed column: strings (`SNP`, `CHR`), integers (`N`, `DIR`, dtype int),
floats (`P`, `CHISQ`, `MAF`, dtype float), or booleans (the `keep` marker
column built inside `loj`). -/
inductive Col where
  | strC (l : List String)
  | intC (l : List Int)
  | rvalC (l : List RVal)
  | boolC (l : List Bool)
  deriving DecidableEq, Repr

/-- A dataframe: an ordered association list of named columns. -/
abbrev DF := List (ColName × Col)

namespace DF

/-- First column (leftmost occurrence) with the given name, as pandas column
lookup finds it. -/
def find? : DF → ColName → Option Col
  | [], _ => none
  | (k, v) :: rest, n => if k = n then some v else find? rest n

/-- Whether the dataframe has a column with the given name. -/
def hasCol (df : DF) (n : ColName) : Bool := (df.find? n).isSome

/-- Column assignment `df[n] = c`: replace the first column named `n` in
place, or append a new column at the right end when none exists (as pandas
assignment does). -/
def set : DF → ColName → Col → DF
  | [], n, c => [(n, c)]
  | (k, v) :: rest, n, c =>
      if k = n then (k, c) :: rest else (k, v) :: set rest n c

/-- The `rename(columns={a: b})` operation: every column named `a` is
relabelled `b`, positions unchanged. -/
def rename (df : DF) (a b : ColName) : DF :=
  df.map (fun kv => (if kv.1 = a then b else kv.1, kv.2))

/-- The `del df[n]` statement: remove the column(s) named `n`. -/
def del (df : DF) (n : ColName) : DF :=
  df.filter (fun kv => decide (kv.1 ≠ n))

/-- Read a string column; a missing name is a `KeyError`, a wrong dtype a
`TypeError` (neither is caught in parse.py). -/
def getStr (df : DF) (n : ColName) : Except String (List String) :=
  match df.find? n with
  | some (.strC l) => .ok l
  | some _ => .error "TypeError: expected a string column"
  | none => .error "KeyError"

/-- Read an integer column. -/
def getInt (df : DF) (n : ColName) : Except String (List Int) :=
  match df.find? n with
  | some (.intC l) => .ok l
  | some _ => .error "TypeError: expected an int column"
  | none => .error "KeyError"

/-- Read a float column. -/
def getRVal (df : DF) (n : ColName) : Except String (List RVal) :=
  match df.find? n with
  | some (.rvalC l) => .ok l
  | some _ => .error "TypeError: expected a float column"
  | none => .error "KeyError"

end DF

/-- Cast an integer column to float, as `x[N].astype(float)` does. -/
def intToFloat (l : List Int) : List RVal := l.map (fun n => RVal.val (n : ℚ))

/-- The parser `chisq` (parse.py lines 122-164), after `pd.read_csv` has
produced the typed dataframe `x` (the file-reading and dtype-coercion layer
is not modelled; a table that would fail coercion never reaches this code).
`chdtri1` abstracts `scipy.special.chdtri(1, .)`, the inverse chi-square
survival function with one degree of freedom, whose numerics no claim
depends on. -/
def chisq (chdtri1 : RVal → RVal) (x : DF) : Except String DF := do
  let N ← x.getInt .N
  check_N N
  let x := x.set .N (.rvalC (intToFloat N))
  let snp ← x.getStr .SNP
  check_rsid snp
  let x ← (if x.hasCol .MAF then do
      let maf ← x.getRVal .MAF
      check_maf maf
      pure (x.set .MAF (.rvalC (np_fmin maf (maf.map RVal.oneSub))))
    else pure x)
  if x.hasCol .P then do
    let P ← x.getRVal .P
    check_pvalue P
    let x := x.set .P (.rvalC (P.map chdtri1))
    pure (x.rename .P .CHISQ)
  else if x.hasCol .CHISQ then do
    let c ← x.getRVal .CHISQ
    check_chisq c
    pure x
  else
    .error ".chisq file must have a column labeled either P or CHISQ."

/-- The expression `np.sqrt(chisqCol / nCol) * dirCol` from parse.py lines
210 and 215, computed elementwise (`nCol` has already been cast to float). -/
def betahat_of (sqrtQ : ℚ → RVal) (chisqCol nCol : List RVal) (dirCol : List Int) :
    List RVal :=
  ((chisqCol.zipWith RVal.div nCol).map (np_sqrt sqrtQ)).zipWith RVal.mulInt dirCol

/-- The call `np.min(x[MAF], 1 - x[MAF])` at parse.py line 224.  Unlike the
`np.fmin` used in `chisq`, `np.min` is `np.amin`, a reduction whose second
positional parameter is `axis`; on a pandas Series it delegates to
`Series.min`, which (in the pandas generation this code targets, the one
with `DataFrame.ix`) ignores the axis argument and returns the scalar
nan-skipping minimum of the first series.  The second argument is thus
dead, and the subsequent column assignment broadcasts the scalar. -/
def np_min_reduce (a axisArg : List RVal) : RVal := series_min a

/-- One iteration of the phenotype loop of `betaprod` (parse.py lines
202-224), with the six column names `N{i}`, `P{i}`, `CHISQ{i}`, `DIR{i}`,
`MAF{i}`, `BETAHAT{i}` passed in, as well as the error message for the
missing-column case. -/
def betaprod_one (chdtri1 : RVal → RVal) (sqrtQ : ℚ → RVal)
    (nN nP nCHISQ nDIR nMAF nBETAHAT : ColName) (errP : String) (x : DF) :
    Except String DF := do
  let N ← x.getInt nN
  check_N N
  let Nf := intToFloat N
  let x := x.set nN (.rvalC Nf)
  let dir ← x.getInt nDIR
  check_dir dir
  let x ← (if x.hasCol nCHISQ then do
      let c ← x.getRVal nCHISQ
      check_chisq c
      let x := x.set nCHISQ (.rvalC (betahat_of sqrtQ c Nf dir))
      pure (x.rename nCHISQ nBETAHAT)
    else if x.hasCol nP then do
      let p ← x.getRVal nP
      check_pvalue p
      let x := x.set nP (.rvalC (betahat_of sqrtQ (p.map chdtri1) Nf dir))
      pure (x.rename nP nBETAHAT)
    else .error errP)
  let x := x.del nDIR
  if x.hasCol nMAF then do
    let maf ← x.getRVal nMAF
    check_maf maf
    pure (x.set nMAF (.rvalC (List.replicate maf.length
      (np_min_reduce maf (maf.map RVal.oneSub)))))
  else pure x

/-- The parser `betaprod` (parse.py lines 167-226), after `pd.read_csv`:
`check_rsid` on `SNP`, then the phenotype loop for `i = 1, 2`. -/
def betaprod (chdtri1 : RVal → RVal) (sqrtQ : ℚ → RVal) (x : DF) :
    Except String DF := do
  let snp ← x.getStr .SNP
  check_rsid snp
  let x ← betaprod_one chdtri1 sqrtQ .N1 .P1 .CHISQ1 .DIR1 .MAF1 .BETAHAT1
    "No column named P1 or CHISQ1 in betaprod." x
  betaprod_one chdtri1 sqrtQ .N2 .P2 .CHISQ2 .DIR2 .MAF2 .BETAHAT2
    "No column named P2 or CHISQ2 in betaprod." x

/-- Filter a list by a boolean mask of row selectors (pandas `l[mask]`). -/
def maskFilter {α : Type} (mask : List Bool) (l : List α) : List α :=
  ((l.zip mask).filter (fun p => p.2)).map (fun p => p.1)

/-- Apply a row mask to one column. -/
def colFilter (mask : List Bool) : Col → Col
  | .strC l => .strC (maskFilter mask l)
  | .intC l => .intC (maskFilter mask l)
  | .rvalC l => .rvalC (maskFilter mask l)
  | .boolC l => .boolC (maskFilter mask l)

/-- Row selection `x[ii]` by a boolean Series `ii`. -/
def DF.filterRows (df : DF) (mask : List Bool) : DF :=
  df.map (fun kv => (kv.1, colFilter mask kv.2))

/-- The `drop(labels, axis=1)` call: each label must exist (pandas raises
otherwise) and its column is removed. -/
def DF.dropCols : DF → List ColName → Except String DF
  | df, [] => .ok df
  | df, n :: ns =>
      if df.hasCol n then DF.dropCols (df.del n) ns
      else .error "KeyError: label not contained in axis"

/-- The slice assignment `x.ix[:, 1:] = x.ix[:, 1:].astype(float)` at
parse.py line 249: every column after the first is cast to float.  The LD
score columns it targets are float already (and `N` columns are int); a
string column there would raise in python and is modelled as an error. -/
def DF.astypeFloatTail (df : DF) : Except String DF :=
  match df with
  | [] => .ok []
  | first :: rest => do
      let rest2 ← rest.mapM (fun kv =>
        match kv.2 with
        | .intC l => Except.ok (kv.1, Col.rvalC (intToFloat l))
        | .rvalC l => Except.ok (kv.1, Col.rvalC l)
        | .boolC l => Except.ok
            (kv.1, Col.rvalC (l.map (fun b => RVal.val (if b then 1 else 0))))
        | .strC _ => Except.error "ValueError: could not convert string to float")
      pure (first :: rest2)

/-- The `keep` column of `pd.merge(IDList, merge_df, how=left, sort=False)`
(parse.py lines 305-306): for each left identifier in order, one output row
per matching right row carrying `True`, or a single row carrying the `NaN`
produced by a non-match (modelled as `none`).  A left join with
`sort=False` preserves the left key order. -/
def pd_merge_keep (left right : List String) : List (Option Bool) :=
  left.flatMap (fun l =>
    let ms := right.filter (fun r => r == l)
    if ms.isEmpty then [none] else ms.map (fun _ => some true))

/-- Indices of the `True` entries in increasing order, as `np.nonzero`
returns them for a one-dimensional boolean array. -/
def np_nonzero (l : List Bool) : List Nat :=
  (List.range l.length).filter (fun i => l.getD i false)

/-- The method `IDContainer.loj` (parse.py lines 297-308) on the underlying
identifier columns: left join of `self.IDList` with the first column of the
external dataframe extended by a constant `keep` column, comparison of the
joined `keep` column with `True` (`NaN == True` is `False`), and
`np.nonzero` of the resulting mask. -/
def loj (idlist ext : List String) : List Nat :=
  np_nonzero ((pd_merge_keep idlist ext).map (fun o => o == some true))

/-- A heap of dataframe objects addressed by allocation order, used to make
the object mutations of `IDContainer.loj` explicit. -/
abbrev PdHeap := List DF

namespace PdHeap

/-- Dereference an address (reading an absent address yields an empty frame;
the theorems only read valid addresses). -/
def read (h : PdHeap) (a : Nat) : DF := h.getD a []

/-- Overwrite the object at an address. -/
def write (h : PdHeap) (a : Nat) (d : DF) : PdHeap := h.set a d

/-- Allocate a fresh object and return its address. -/
def alloc (h : PdHeap) (d : DF) : PdHeap × Nat := (h ++ [d], h.length)

end PdHeap

/-- The one-column dataframe `df.iloc[:, [0]]`.  Indexing with a position
list returns a copy, not a view, so the result is a fresh object. -/
def DF.firstColDF : DF → DF
  | [] => []
  | kv :: _ => [kv]

/-- The string entries of the first column of a dataframe (the identifier
columns handled by `loj` hold strings). -/
def DF.firstColStrings : DF → List String
  | (_, Col.strC l) :: _ => l
  | _ => []

/-- The body of `IDContainer.loj` (parse.py lines 297-308) with its object
effects explicit: `merge_df = externalDf.iloc[:, [0]]` allocates a copy of
the first column of the external dataframe; `merge_df[keep] = True` writes
to that fresh object only; the merge and `np.nonzero` read.  Returns the
final heap and the index array. -/
def loj_prog (h0 : PdHeap) (extA idA : Nat) : PdHeap × List Nat :=
  let (h1, mA) := h0.alloc (h0.read extA).firstColDF
  let mdf := h1.read mA
  let h2 := h1.write mA
    (mdf.set .keep (.boolC (List.replicate mdf.firstColStrings.length true)))
  let idCol := (h2.read idA).firstColStrings
  let rightCol := (h2.read mA).firstColStrings
  (h2, loj idCol rightCol)

/-- The parser `ldscore` (parse.py lines 229-251) in its single-file branch
(`num = None`; the `num` branch only concatenates per-chromosome tables
before the same row operations), after `pd.read_csv`: drop `CHR`, `BP`,
`CM`, `MAF`; keep only rows whose `SNP` differs from `.`; run `check_rsid`
on the remaining identifiers; cast the non-`SNP` columns to float. -/
def ldscore (x : DF) : Except String DF := do
  let x ← x.dropCols [.CHR, .BP, .CM, .MAF]
  let snp ← x.getStr .SNP
  let ii := snp.map (fun s => s != ".")
  let x := x.filterRows ii
  let snp2 ← x.getStr .SNP
  check_rsid snp2
  x.astypeFloatTail

/-! Parameterised and concrete input tables used by the claim theorems. -/

/-- A `.l2.ldscore` table with an `SNP` column and one LD score column; the
`CHR`, `BP`, `CM` and `MAF` columns are dropped by `ldscore` before any row
operation, so their contents are irrelevant and they are kept empty here. -/
def mkLdscoreDF (snp : List String) (l2 : List RVal) : DF :=
  [(.CHR, .strC []), (.BP, .intC []), (.CM, .rvalC []), (.MAF, .rvalC []),
   (.SNP, .strC snp), (.other "L2", .rvalC l2)]

/-- A `.chisq` table carrying `SNP`, `N` and a `P` column. -/
def mkChisqP (snp : List String) (n : List Int) (p : List RVal) : DF :=
  [(.SNP, .strC snp), (.N, .intC n), (.P, .rvalC p)]

/-- A `.chisq` table carrying both a `CHISQ` and a `P` column. -/
def mkChisqBoth (p c : List RVal) : DF :=
  [(.SNP, .strC ["rs1"]), (.N, .intC [1]), (.CHISQ, .rvalC c), (.P, .rvalC p)]

/-- A `.betaprod` table whose first phenotype carries a `CHISQ1` column and
whose second phenotype carries only a `P2` column. -/
def mkBetaprodMixed (snp : List String) (n1 d1 : List Int) (c1 : List RVal)
    (n2 d2 : List Int) (p2 : List RVal) : DF :=
  [(.SNP, .strC snp), (.N1, .intC n1), (.DIR1, .intC d1), (.CHISQ1, .rvalC c1),
   (.N2, .intC n2), (.DIR2, .intC d2), (.P2, .rvalC p2)]

/-- A `.betaprod` table whose first phenotype carries both `P1` and `CHISQ1`
(the `P1` contents are left arbitrary). -/
def mkBetaprodBoth (p1 : List RVal) : DF :=
  [(.SNP, .strC ["rs1"]), (.N1, .intC [1]), (.DIR1, .intC [1]), (.P1, .rvalC p1),
   (.CHISQ1, .rvalC [.val 4]), (.N2, .intC [1]), (.DIR2, .intC [1]),
   (.CHISQ2, .rvalC [.val 9])]

/-- The rational `3/5` in normal form (kernel-reducible representation). -/
def q35 : ℚ := Rat.mk' 3 5 (by decide) (by decide)

/-- The rational `1/5` in normal form. -/
def q15 : ℚ := Rat.mk' 1 5 (by decide) (by decide)

/-- The rational `2/5` in normal form. -/
def q25 : ℚ := Rat.mk' 2 5 (by decide) (by decide)

/-- A concrete `.betaprod` table with a `MAF1` column whose entries are
`3/5` and `1/5` (sample sizes are `0`, which `check_N` accepts). -/
def betaprod_maf_input : DF :=
  [(.SNP, .strC ["rs1", "rs2"]), (.N1, .intC [0, 0]), (.DIR1, .intC [1, 1]),
   (.CHISQ1, .rvalC [.val 1, .val 1]), (.MAF1, .rvalC [.val q35, .val q15]),
   (.N2, .intC [0, 0]), (.DIR2, .intC [1, 1]), (.CHISQ2, .rvalC [.val 1, .val 1])]

/-- A concrete `.betaprod` table with sample sizes equal to `0`. -/
def betaprod_N0_input : DF :=
  [(.SNP, .strC ["rs1"]), (.N1, .intC [0]), (.DIR1, .intC [1]),
   (.CHISQ1, .rvalC [.val 1]), (.N2, .intC [0]), (.DIR2, .intC [1]),
   (.CHISQ2, .rvalC [.val 1])]

/-- A concrete `.betaprod` table whose `DIR1` column holds the invalid
direction `2`. -/
def betaprod_badDIR1_input : DF :=
  [(.SNP, .strC ["rs1"]), (.N1, .intC [1]), (.DIR1, .intC [2]),
   (.CHISQ1, .rvalC [.val 1]), (.N2, .intC [1]), (.DIR2, .intC [1]),
   (.CHISQ2, .rvalC [.val 1])]

/-- A concrete `.betaprod` table whose `DIR2` column holds the invalid
direction `2` while the whole first phenotype is valid. -/
def betaprod_badDIR2_input : DF :=
  [(.SNP, .strC ["rs1"]), (.N1, .intC [1]), (.DIR1, .intC [1]),
   (.CHISQ1, .rvalC [.val 1]), (.N2, .intC [1]), (.DIR2, .intC [2]),
   (.CHISQ2, .rvalC [.val 1])]

/-- A concrete `.l2.ldscore` table whose second row has its SNP identifier
set to the dot placeholder. -/
def ldscore_dot_input : DF :=
  [(.CHR, .strC ["1", "1"]), (.BP, .intC [100, 200]),
   (.CM, .rvalC [.val 0, .val 0]), (.MAF, .rvalC [.val (1/4), .val (1/4)]),
   (.SNP, .strC ["rs1", "."]), (.other "L2", .rvalC [.val 1, .val 2])]

/-! Basic reduction lemmas for the `Except` monad and the boolean order on
`RVal`, used throughout the claim proofs. -/

@[simp] theorem except_bind_ok {α β ε : Type} (a : α) (f : α → Except ε β) :
    (Except.ok a >>= f) = f a := rfl

@[simp] theorem except_bind_error {α β ε : Type} (e : ε) (f : α → Except ε β) :
    ((Except.error e : Except ε α) >>= f) = Except.error e := rfl

@[simp] theorem except_pure_eq_ok {α ε : Type} (a : α) :
    (pure a : Except ε α) = Except.ok a := rfl

namespace RVal

theorem ltB_trans_leB {a b c : RVal} (h1 : c.ltB a = true) (h2 : a.leB b = true) :
    c.ltB b = true := by
  cases c <;> cases a <;> cases b <;> simp_all [ltB, leB]
  linarith

theorem leB_trans {a b c : RVal} (h1 : a.leB b = true) (h2 : b.leB c = true) :
    a.leB c = true := by
  cases a <;> cases b <;> cases c <;> simp_all [leB]
  linarith

theorem leB_total {a b : RVal} (ha : a.isNan = false) (hb : b.isNan = false) :
    a.leB b = true ∨ b.leB a = true := by
  cases a <;> cases b <;> simp_all [leB, isNan]
  exact le_total _ _

theorem gtB_eq_not_leB {v w : RVal} (hv : v.isNan = false) (hw : w.isNan = false) :
    v.gtB w = !(v.leB w) := by
  cases v <;> cases w <;>
    first
      | rfl
      | (simp only [gtB, ltB, leB]
         rw [← decide_not, decide_eq_decide]
         exact lt_iff_not_le)
      | (simp [isNan] at hv hw)

theorem max2_isNan {a b : RVal} (ha : a.isNan = false) (hb : b.isNan = false) :
    (max2 a b).isNan = false := by
  unfold max2; split <;> assumption

theorem min2_isNan {a b : RVal} (ha : a.isNan = false) (hb : b.isNan = false) :
    (min2 a b).isNan = false := by
  unfold min2; split <;> assumption

theorem gtB_max2 {a b : RVal} (ha : a.isNan = false) (hb : b.isNan = false)
    (c : RVal) : (max2 a b).gtB c = (a.gtB c || b.gtB c) := by
  unfold max2
  by_cases h : a.leB b = true
  · simp only [if_pos h]
    cases hbc : b.gtB c
    · cases hac : a.gtB c
      · simp
      · exact absurd (ltB_trans_leB hac h) (by simp [gtB] at hbc ⊢; exact hbc)
    · simp
  · have hba : b.leB a = true := (leB_total ha hb).resolve_left h
    simp only [if_neg h]
    cases hac : a.gtB c
    · cases hbc : b.gtB c
      · simp
      · exact absurd (ltB_trans_leB hbc hba) (by simp [gtB] at hac ⊢; exact hac)
    · simp

theorem leB_min2 {a b : RVal} (ha : a.isNan = false) (hb : b.isNan = false)
    (c : RVal) : (min2 a b).leB c = (a.leB c || b.leB c) := by
  unfold min2
  by_cases h : a.leB b = true
  · simp only [if_pos h]
    cases hac : a.leB c
    · cases hbc : b.leB c
      · simp
      · exact absurd (leB_trans h hbc) (by simp [hac])
    · simp
  · have hba : b.leB a = true := (leB_total ha hb).resolve_left h
    simp only [if_neg h]
    cases hbc : b.leB c
    · cases hac : a.leB c
      · simp
      · exact absurd (leB_trans hba hac) (by simp [hbc])
    · simp

end RVal

theorem foldl_max2_gtB (l : List RVal) (hl : ∀ v ∈ l, v.isNan = false) :
    ∀ (a : RVal), a.isNan = false → ∀ (c : RVal),
      (l.foldl RVal.max2 a).gtB c = (a.gtB c || l.any (fun v => v.gtB c)) := by
  induction l with
  | nil => intro a _ c; simp
  | cons x xs ih =>
      intro a ha c
      have hx : x.isNan = false := hl x (by simp)
      have hxs : ∀ v ∈ xs, v.isNan = false := fun v hv => hl v (by simp [hv])
      simp only [List.foldl_cons, List.any_cons]
      rw [ih hxs (RVal.max2 a x) (RVal.max2_isNan ha hx) c,
        RVal.gtB_max2 ha hx c, Bool.or_assoc]

theorem foldl_min2_leB (l : List RVal) (hl : ∀ v ∈ l, v.isNan = false) :
    ∀ (a : RVal), a.isNan = false → ∀ (c : RVal),
      (l.foldl RVal.min2 a).leB c = (a.leB c || l.any (fun v => v.leB c)) := by
  induction l with
  | nil => intro a _ c; simp
  | cons x xs ih =>
      intro a ha c
      have hx : x.isNan = false := hl x (by simp)
      have hxs : ∀ v ∈ xs, v.isNan = false := fun v hv => hl v (by simp [hv])
      simp only [List.foldl_cons, List.any_cons]
      rw [ih hxs (RVal.min2 a x) (RVal.min2_isNan ha hx) c,
        RVal.leB_min2 ha hx c, Bool.or_assoc]

theorem series_max_gtB (l : List RVal) (hl : ∀ v ∈ l, v.isNan = false)
    (c : RVal) : (series_max l).gtB c = l.any (fun v => v.gtB c) := by
  unfold series_max
  rw [List.filter_eq_self.mpr (by intro v hv; simp [hl v hv])]
  cases l with
  | nil => cases c <;> rfl
  | cons x xs =>
      have hx : x.isNan = false := hl x (by simp)
      have hxs : ∀ v ∈ xs, v.isNan = false := fun v hv => hl v (by simp [hv])
      simp only [List.any_cons]
      exact foldl_max2_gtB xs hxs x hx c

theorem series_min_leB (l : List RVal) (hl : ∀ v ∈ l, v.isNan = false)
    (c : RVal) : (series_min l).leB c = l.any (fun v => v.leB c) := by
  unfold series_min
  rw [List.filter_eq_self.mpr (by intro v hv; simp [hl v hv])]
  cases l with
  | nil => cases c <;> rfl
  | cons x xs =>
      have hx : x.isNan = false := hl x (by simp)
      have hxs : ∀ v ∈ xs, v.isNan = false := fun v hv => hl v (by simp [hv])
      simp only [List.any_cons]
      exact foldl_min2_leB xs hxs x hx c

/-- Characterisation of `check_pvalue` acceptance: no `nan` is present and
every entry lies in the half-open interval `(0, 1]`. -/
theorem check_pvalue_ok_iff (P : List RVal) :
    check_pvalue P = .ok () ↔
      ∀ v ∈ P, (RVal.val 0).ltB v = true ∧ v.leB (.val 1) = true := by
  unfold check_pvalue
  cases hn : P.any RVal.isNan with
  | true =>
      obtain ⟨v, hv, hnan⟩ := List.any_eq_true.mp hn
      simp only [hn, if_true]
      constructor
      · intro h; exact absurd h (by simp)
      · intro h
        have := (h v hv).1
        cases v <;> simp_all [RVal.ltB, RVal.isNan]
  | false =>
      have hnn : ∀ v ∈ P, v.isNan = false := by
        intro v hv
        have := List.any_eq_false.mp hn v hv
        simpa using this
      simp only [hn, Bool.false_eq_true, if_false]
      rw [series_max_gtB P hnn, series_min_leB P hnn]
      cases h1 : P.any (fun v => v.gtB (.val 1)) with
      | true =>
          obtain ⟨v, hv, hgt⟩ := List.any_eq_true.mp h1
          simp only [if_true]
          constructor
          · intro h; exact absurd h (by simp)
          · intro h
            have hle := (h v hv).2
            rw [RVal.gtB_eq_not_leB (hnn v hv) (by rfl)] at hgt
            simp [hle] at hgt
      | false =>
          simp only [Bool.false_eq_true, if_false]
          cases h0 : P.any (fun v => v.leB (.val 0)) with
          | true =>
              obtain ⟨v, hv, hle⟩ := List.any_eq_true.mp h0
              simp only [if_true]
              constructor
              · intro h; exact absurd h (by simp)
              · intro h
                have hlt : v.gtB (.val 0) = true := (h v hv).1
                rw [RVal.gtB_eq_not_leB (hnn v hv) (by rfl)] at hlt
                simp [hle] at hlt
          | false =>
              simp only [Bool.false_eq_true, if_false]
              constructor
              · intro _ v hv
                have hvnn := hnn v hv
                have hv1 : v.gtB (.val 1) = false := by
                  simpa using List.any_eq_false.mp h1 v hv
                have hv0 : v.leB (.val 0) = false := by
                  simpa using List.any_eq_false.mp h0 v hv
                constructor
                · show v.gtB (.val 0) = true
                  rw [RVal.gtB_eq_not_leB hvnn (by rfl), hv0]; rfl
                · rw [RVal.gtB_eq_not_leB hvnn (by rfl)] at hv1
                  simpa using hv1
              · intro _; trivial

/-- Characterisation of `check_dir` acceptance: every direction is `±1`. -/
theorem check_dir_ok_iff (d : List Int) :
    check_dir d = .ok () ↔ ∀ x ∈ d, x = 1 ∨ x = -1 := by
  unfold check_dir
  by_cases h : d.any (fun x => decide (x ≠ 1) && decide (x ≠ -1)) = true
  · obtain ⟨x, hx, hbad⟩ := List.any_eq_true.mp h
    simp only [h, if_pos]
    constructor
    · intro hh; exact absurd hh (by simp)
    · intro hh
      rcases hh x hx with h1 | h1 <;> simp [h1] at hbad
  · simp only [h, if_neg]
    constructor
    · intro _ x hx
      by_contra hc
      push_neg at hc
      exact h (List.any_eq_true.mpr ⟨x, hx, by simp [hc.1, hc.2]⟩)
    · intro _; rfl

theorem foldl_min_lt (l : List Int) :
    ∀ (a c : Int), (l.foldl min a < c) ↔ (a < c ∨ ∃ n ∈ l, n < c) := by
  induction l with
  | nil => intro a c; simp
  | cons x xs ih =>
      intro a c
      simp only [List.foldl_cons]
      rw [ih (min a x) c, min_lt_iff]
      constructor
      · rintro ((h | h) | ⟨n, hn, h⟩)
        · exact Or.inl h
        · exact Or.inr ⟨x, by simp, h⟩
        · exact Or.inr ⟨n, by simp [hn], h⟩
      · rintro (h | ⟨n, hn, h⟩)
        · exact Or.inl (Or.inl h)
        · rcases List.mem_cons.mp hn with rfl | hn
          · exact Or.inl (Or.inr h)
          · exact Or.inr ⟨n, hn, h⟩

/-- Characterisation of `check_N` acceptance: no sample size is negative
(in particular a sample size of `0` passes). -/
theorem check_N_ok_iff (N : List Int) :
    check_N N = .ok () ↔ ∀ n ∈ N, 0 ≤ n := by
  unfold check_N series_min_int
  cases N with
  | nil => simp
  | cons x xs =>
      simp only []
      by_cases h : xs.foldl min x < 0
      · simp only [h, if_pos]
        rcases (foldl_min_lt xs x 0).mp h with h0 | ⟨n, hn, h0⟩
        · constructor
          · intro hh; exact absurd hh (by simp)
          · intro hh; exact absurd (hh x (by simp)) (by omega)
        · constructor
          · intro hh; exact absurd hh (by simp)
          · intro hh; exact absurd (hh n (by simp [hn])) (by omega)
      · simp only [h, if_neg]
        constructor
        · intro _ n hn
          by_contra hc
          push_neg at hc
          rcases List.mem_cons.mp hn with rfl | hn
          · exact h ((foldl_min_lt xs n 0).mpr (Or.inl hc))
          · exact h ((foldl_min_lt xs x 0).mpr (Or.inr ⟨n, hn, hc⟩))
        · intro _; rfl

theorem series_duplicated_any (l : List String) :
    ((series_duplicated l).any id = false) ↔ l.Nodup := by
  induction l with
  | nil => simp [series_duplicated]
  | cons x xs ih => simp [series_duplicated, List.nodup_cons, ih]

/-- Characterisation of `check_rsid` acceptance: no identifier is the dot
placeholder and there are no duplicates. -/
theorem check_rsid_ok_iff (l : List String) :
    check_rsid l = .ok () ↔ ((∀ s ∈ l, s ≠ ".") ∧ l.Nodup) := by
  unfold check_rsid
  by_cases hd : l.any (fun s => s == ".") = true
  · obtain ⟨s, hs, hdot⟩ := List.any_eq_true.mp hd
    simp only [hd, if_pos]
    constructor
    · intro h; exact absurd h (by simp)
    · intro h; exact absurd (by simpa using hdot) (h.1 s hs)
  · simp only [hd, if_neg]
    by_cases hdup : (series_duplicated l).any id = true
    · simp only [hdup, if_pos]
      constructor
      · intro h; exact absurd h (by simp)
      · intro h
        rw [← series_duplicated_any l] at h
        simp [h.2] at hdup
    · simp only [hdup, if_neg]
      constructor
      · intro _
        refine ⟨fun s hs hc => ?_, (series_duplicated_any l).mp (by simpa using hdup)⟩
        exact hd (List.any_eq_true.mpr ⟨s, hs, by simp [hc]⟩)
      · intro _; rfl

/-- A single `RVal` value outside the interval `(0, 1]` (or missing)
falsifies the pointwise p-value bound. -/
theorem pvalue_bad_iff (v : RVal) :
    (¬((RVal.val 0).ltB v = true ∧ v.leB (.val 1) = true)) ↔
      (v.isNan = true ∨ v.gtB (.val 1) = true ∨ v.leB (.val 0) = true) := by
  cases v with
  | nan => simp [RVal.ltB, RVal.leB, RVal.gtB, RVal.isNan]
  | inf => simp [RVal.ltB, RVal.leB, RVal.gtB, RVal.isNan]
  | ninf => simp [RVal.ltB, RVal.leB, RVal.gtB, RVal.isNan]
  | val q =>
      simp only [RVal.ltB, RVal.leB, RVal.gtB, RVal.isNan, decide_eq_true_eq,
        not_and, not_le, Bool.false_eq_true, false_or]
      constructor
      · intro h
        rcases lt_or_le (0 : ℚ) q with h0 | h0
        · exact Or.inl (h h0)
        · exact Or.inr h0
      · intro h h0
        rcases h with h | h
        · exact h
        · exact absurd h0 (not_lt.mpr h)

/-- Filtering a list by the mask obtained from mapping a predicate over the
same list is ordinary filtering. -/
theorem maskFilter_map_self {α : Type} (p : α → Bool) (l : List α) :
    maskFilter (l.map p) l = l.filter p := by
  induction l with
  | nil => rfl
  | cons x xs ih =>
      cases hx : p x <;>
        simp_all [maskFilter, List.filter_cons, hx]

/-- In a duplicate-free list, filtering by equality with a key yields the
singleton of that key or nothing. -/
theorem filter_beq_of_nodup (e : List String) (he : e.Nodup) (s : String) :
    e.filter (fun r => r == s) = if s ∈ e then [s] else [] := by
  induction e with
  | nil => simp
  | cons a as ih =>
      rw [List.nodup_cons] at he
      by_cases has : a = s
      · subst has
        rw [List.filter_cons_of_pos (by simp)]
        rw [List.filter_eq_nil_iff.mpr (fun b hb => by
          simp only [Bool.not_eq_true, beq_eq_false_iff_ne, ne_eq]
          intro hba; subst hba; exact he.1 hb)]
        simp
      · rw [List.filter_cons_of_neg (by simp [has])]
        rw [ih he.2]
        by_cases hs : s ∈ as
        · simp [hs, List.mem_cons]
        · have hne : s ∉ a :: as := by
            simp only [List.mem_cons, hs, or_false]
            exact fun h => has h.symm
          rw [if_neg hs, if_neg hne]

/-- Against a duplicate-free right column, the left join produces exactly
one output row per left row, with `keep` present exactly on matches. -/
theorem pd_merge_keep_nodup (idlist e : List String) (he : e.Nodup) :
    pd_merge_keep idlist e =
      idlist.map (fun l => if l ∈ e then some true else none) := by
  induction idlist with
  | nil => rfl
  | cons x xs ih =>
      unfold pd_merge_keep at ih ⊢
      simp only [List.flatMap_cons, List.map_cons]
      rw [ih]
      rw [filter_beq_of_nodup e he x]
      by_cases hx : x ∈ e <;> simp [hx]

/-- Index extraction commutes with mapping a boolean predicate. -/
theorem np_nonzero_map_str (f : String → Bool) (l : List String) :
    np_nonzero (l.map f) =
      (List.range l.length).filter (fun i => f (l.getD i "")) := by
  unfold np_nonzero
  rw [List.length_map]
  refine List.filter_congr (fun i hi => ?_)
  rw [List.mem_range] at hi
  rw [List.getD_eq_getElem?_getD, List.getD_eq_getElem?_getD,
    List.getElem?_map, List.getElem?_eq_getElem hi]
  simp

/-- Reading an address below the set index is unaffected by the write. -/
theorem getD_set_of_ne {α : Type} (l : List α) (i j : Nat) (x d : α)
    (h : i ≠ j) : (l.set i x).getD j d = l.getD j d := by
  rw [List.getD_eq_getElem?_getD, List.getD_eq_getElem?_getD,
    List.getElem?_set_ne h]

/-! Claim theorems. -/

/-- Claim C1, counterexample: `ldscore`, handed a table containing a row
whose SNP identifier is the dot placeholder, does not raise; it silently
drops that row and returns the remaining rows. -/
theorem ldscore_accepts_dot_row :
    ldscore ldscore_dot_input =
      .ok [(.SNP, .strC ["rs1"]), (.other "L2", .rvalC [.val 1])] := rfl

/-- Claim C1, amended: `chisq` and `betaprod` raise on the first invalid
value found, but `ldscore` does not raise on dot identifiers: it filters
out every row whose `SNP` entry is `.` before validation and accepts the
remaining rows (`check_rsid` then applies to the filtered identifiers
only). -/
theorem ldscore_drops_dot_rows (snp : List String) (l2 : List RVal)
    (h : (snp.filter (fun s => s != ".")).Nodup) :
    ldscore (mkLdscoreDF snp l2) =
      .ok [(.SNP, .strC (snp.filter (fun s => s != "."))),
           (.other "L2", .rvalC (maskFilter (snp.map (fun s => s != ".")) l2))] := by
  have hrs : check_rsid (snp.filter (fun s => s != ".")) = .ok () := by
    rw [check_rsid_ok_iff]
    refine ⟨fun s hs => ?_, h⟩
    have := List.of_mem_filter hs
    simpa using this
  have hdrop : (mkLdscoreDF snp l2).dropCols [.CHR, .BP, .CM, .MAF] =
      .ok [(.SNP, Col.strC snp), (.other "L2", Col.rvalC l2)] := rfl
  unfold ldscore
  rw [hdrop]
  simp only [except_bind_ok, DF.getStr, DF.find?, if_pos, DF.filterRows,
    List.map_cons, List.map_nil, colFilter, maskFilter_map_self, hrs,
    DF.astypeFloatTail, List.mapM_cons, List.mapM_nil]
  rfl

/-- Claim C1 amended witness: a concrete run on a table with a dot row. -/
theorem ldscore_drops_dot_rows_witness :
    ((["rs1", "."].filter (fun s => s != ".")).Nodup) ∧
    ldscore (mkLdscoreDF ["rs1", "."] [RVal.val 1, RVal.val 2]) =
      .ok [(.SNP, .strC ["rs1"]), (.other "L2", .rvalC [.val 1])] :=
  ⟨by decide,
    ldscore_drops_dot_rows ["rs1", "."] [RVal.val 1, RVal.val 2] (by decide)⟩

/-- Claim C4: against an external dataframe whose first column has no
duplicates, `loj` returns exactly the 0-based positions, in increasing
order, of the elements of the identifier list that appear in that
column. -/
theorem loj_left_join_positions (idlist ext : List String) (h : ext.Nodup) :
    loj idlist ext =
      (List.range idlist.length).filter
        (fun i => decide (idlist.getD i "" ∈ ext)) := by
  unfold loj
  rw [pd_merge_keep_nodup idlist ext h, List.map_map]
  have : ((fun o => o == some true) ∘ fun l =>
      if l ∈ ext then some true else none) =
      (fun l => decide (l ∈ ext)) := by
    funext l
    by_cases hl : l ∈ ext <;> simp [hl]
  rw [this, np_nonzero_map_str]

/-- Claim C4 witness: a concrete run of `loj`. -/
theorem loj_left_join_positions_witness :
    (["d", "b", "x"] : List String).Nodup ∧
      loj ["a", "b", "c", "d"] ["d", "b", "x"] = [1, 3] :=
  ⟨by decide, loj_left_join_positions ["a", "b", "c", "d"] ["d", "b", "x"] (by decide)⟩

/-- Claim C5, failing-input evaluation: on a `.betaprod` table whose `MAF1`
column is `[3/5, 1/5]`, the code stores the broadcast scalar column minimum
`[1/5, 1/5]` in `MAF1` (its `np.min` call is a reduction whose second
argument lands in the axis position), whereas the elementwise fold
`np.fmin(m, 1-m)` used by `chisq` — the transform the claim asserts for
both parsers — yields `[2/5, 1/5]`; the two disagree. -/
theorem betaprod_maf_not_folded :
    (betaprod (fun v => v) (fun _ => .val 0) betaprod_maf_input =
      .ok [(.SNP, .strC ["rs1", "rs2"]),
           (.N1, .rvalC [.val 0, .val 0]),
           (.BETAHAT1, .rvalC [.inf, .inf]),
           (.MAF1, .rvalC [.val q15, .val q15]),
           (.N2, .rvalC [.val 0, .val 0]),
           (.BETAHAT2, .rvalC [.inf, .inf])]) ∧
    np_fmin [RVal.val q35, RVal.val q15]
        ([RVal.val q35, RVal.val q15].map RVal.oneSub) =
      [RVal.val q25, RVal.val q15] ∧
    ([RVal.val q15, RVal.val q15] : List RVal) ≠
      [RVal.val q25, RVal.val q15] := by
  have e35 : q35 = 3 / 5 := by
    rw [q35, Rat.mk'_eq_divInt, Rat.divInt_eq_div]
    norm_num
  have e15 : q15 = 1 / 5 := by
    rw [q15, Rat.mk'_eq_divInt, Rat.divInt_eq_div]
    norm_num
  have e25 : q25 = 2 / 5 := by
    rw [q25, Rat.mk'_eq_divInt, Rat.divInt_eq_div]
    norm_num
  refine ⟨rfl, ?_, by decide⟩
  norm_num [np_fmin, np_fmin2, RVal.oneSub, RVal.leB, e35, e15, e25]

/-- Claim C6: `check_pvalue` raises exactly when its input contains a `nan`,
a value greater than `1`, or a value less than or equal to `0`;
equivalently, it accepts exactly when every entry lies in `(0, 1]`. -/
theorem check_pvalue_raises_iff (P : List RVal) :
    ((check_pvalue P ≠ .ok ()) ↔
      ∃ v ∈ P, (v.isNan = true ∨ v.gtB (.val 1) = true ∨ v.leB (.val 0) = true)) ∧
    (check_pvalue P = .ok () ↔
      ∀ v ∈ P, ((RVal.val 0).ltB v = true ∧ v.leB (.val 1) = true)) := by
  refine ⟨?_, check_pvalue_ok_iff P⟩
  cases hc : check_pvalue P with
  | ok u =>
      cases u
      have hgood := (check_pvalue_ok_iff P).mp hc
      constructor
      · intro hne; exact absurd rfl hne
      · rintro ⟨v, hv, hbad⟩
        exact absurd (hgood v hv) ((pvalue_bad_iff v).mpr hbad)
  | error e =>
      constructor
      · intro _
        by_contra hno
        have hgood : ∀ v ∈ P,
            ((RVal.val 0).ltB v = true ∧ v.leB (.val 1) = true) := by
          intro v hv
          by_contra hbad
          exact hno ⟨v, hv, (pvalue_bad_iff v).mp hbad⟩
        rw [(check_pvalue_ok_iff P).mpr hgood] at hc
        exact Except.noConfusion hc
      · intro _
        simp [hc]

/-- Claim C7: `check_dir` raises exactly when some entry is neither `+1`
nor `-1`, and `betaprod` runs this check on `DIR1` and on `DIR2` before
computing effect sizes: an invalid direction in either column aborts the
parse with the `check_dir` error (for `DIR2`, after the whole first
phenotype has been processed), whatever `chdtri` and `sqrt` are. -/
theorem check_dir_raises_iff_and_guards_betaprod :
    (∀ d : List Int,
      ((check_dir d ≠ .ok ()) ↔ ∃ x ∈ d, x ≠ 1 ∧ x ≠ -1)) ∧
    (∀ (chdtri1 : RVal → RVal) (sqrtQ : ℚ → RVal),
      betaprod chdtri1 sqrtQ betaprod_badDIR1_input =
        .error "DIR entry not equal to +/- 1.") ∧
    (∀ (chdtri1 : RVal → RVal) (sqrtQ : ℚ → RVal),
      betaprod chdtri1 sqrtQ betaprod_badDIR2_input =
        .error "DIR entry not equal to +/- 1.") := by
  refine ⟨fun d => ?_, fun _ _ => rfl, fun _ _ => rfl⟩
  rw [Ne, check_dir_ok_iff]
  push_neg
  rfl

/-- Claim C8 witness heap is inlined below; see `loj_prog_frame`. -/
theorem loj_prog_frame (h0 : PdHeap) (extA idA : Nat)
    (hext : extA < h0.length) (hid : idA < h0.length) :
    ((loj_prog h0 extA idA).1.read extA = h0.read extA) ∧
    ((loj_prog h0 extA idA).1.read idA = h0.read idA) := by
  unfold loj_prog PdHeap.alloc PdHeap.write PdHeap.read
  constructor
  · rw [getD_set_of_ne _ _ _ _ _ (by omega),
      List.getD_append _ _ _ _ hext]
  · rw [getD_set_of_ne _ _ _ _ _ (by omega),
      List.getD_append _ _ _ _ hid]

/-- Claim C8 witness: a concrete two-object heap; the external dataframe
and the identifier list are unchanged by `loj`. -/
theorem loj_prog_frame_witness :
    (0 : Nat) < 2 ∧ (1 : Nat) < 2 ∧
    (((loj_prog [[(ColName.other "ID", Col.strC ["d", "b", "x"])],
        [(ColName.other "ID", Col.strC ["a", "b"])]] 0 1).1.read 0 =
      PdHeap.read [[(ColName.other "ID", Col.strC ["d", "b", "x"])],
        [(ColName.other "ID", Col.strC ["a", "b"])]] 0) ∧
     ((loj_prog [[(ColName.other "ID", Col.strC ["d", "b", "x"])],
        [(ColName.other "ID", Col.strC ["a", "b"])]] 0 1).1.read 1 =
      PdHeap.read [[(ColName.other "ID", Col.strC ["d", "b", "x"])],
        [(ColName.other "ID", Col.strC ["a", "b"])]] 1)) :=
  ⟨by decide, by decide,
    loj_prog_frame [[(ColName.other "ID", Col.strC ["d", "b", "x"])],
      [(ColName.other "ID", Col.strC ["a", "b"])]] 0 1 (by decide) (by decide)⟩

/-- Claim C9: `check_N` raises only for a negative sample size, so `N = 0`
passes validation, and on a `.betaprod` input with `N1 = N2 = 0` the
division inside the effect-size formula produces an infinite `BETAHAT`
value while the parser returns successfully, whatever `chdtri` and `sqrt`
are. -/
theorem check_N_zero_passes_and_betahat_infinite :
    (∀ N : List Int, (check_N N = .ok () ↔ ∀ n ∈ N, 0 ≤ n)) ∧
    check_N [0] = .ok () ∧
    (∀ (chdtri1 : RVal → RVal) (sqrtQ : ℚ → RVal),
      betaprod chdtri1 sqrtQ betaprod_N0_input =
        .ok [(.SNP, .strC ["rs1"]), (.N1, .rvalC [.val 0]),
             (.BETAHAT1, .rvalC [.inf]), (.N2, .rvalC [.val 0]),
             (.BETAHAT2, .rvalC [.inf])]) :=
  ⟨check_N_ok_iff, rfl, fun _ _ => rfl⟩

/-- Claim C2: for every table of shape `SNP, N, P` accepted by `chisq`, the
returned table is the input with `N` cast to float and the `P` column
replaced elementwise by `chdtri(1, ·)` and renamed `CHISQ`; moreover
acceptance entails that every `P` entry is a non-`nan` value in `(0, 1]`. -/
theorem chisq_pvalue_transform (chdtri1 : RVal → RVal) (snp : List String)
    (n : List Int) (p : List RVal) (y : DF)
    (hrun : chisq chdtri1 (mkChisqP snp n p) = .ok y) :
    y = [(.SNP, .strC snp), (.N, .rvalC (intToFloat n)),
         (.CHISQ, .rvalC (p.map chdtri1))] ∧
    ∀ v ∈ p, ((RVal.val 0).ltB v = true ∧ v.leB (.val 1) = true) := by
  unfold chisq at hrun
  simp [mkChisqP, DF.getInt, DF.getStr, DF.getRVal, DF.find?, DF.set,
    DF.hasCol, DF.rename] at hrun
  cases hN : check_N n with
  | error e => simp [hN] at hrun
  | ok u =>
    cases u
    simp only [hN, except_bind_ok] at hrun
    cases hrs : check_rsid snp with
    | error e => simp [hrs] at hrun
    | ok u2 =>
      cases u2
      simp only [hrs, except_bind_ok] at hrun
      cases hp : check_pvalue p with
      | error e => simp [hp] at hrun
      | ok u3 =>
        cases u3
        simp only [hp, except_bind_ok, Except.ok.injEq] at hrun
        exact ⟨hrun.symm, (check_pvalue_ok_iff p).mp hp⟩

/-- Claim C2 witness: a concrete accepted run of `chisq`. -/
theorem chisq_pvalue_transform_witness :
    (chisq (fun _ => RVal.val 7) (mkChisqP ["rs1"] [5] [RVal.val 1]) =
      .ok [(.SNP, .strC ["rs1"]), (.N, .rvalC (intToFloat [5])),
           (.CHISQ, .rvalC ([RVal.val 1].map (fun _ => RVal.val 7)))]) ∧
    (([(ColName.SNP, Col.strC ["rs1"]), (ColName.N, Col.rvalC (intToFloat [5])),
       (ColName.CHISQ, Col.rvalC ([RVal.val 1].map (fun _ => RVal.val 7)))] : DF) =
      [(.SNP, .strC ["rs1"]), (.N, .rvalC (intToFloat [5])),
       (.CHISQ, .rvalC ([RVal.val 1].map (fun _ => RVal.val 7)))] ∧
     ∀ v ∈ [RVal.val 1],
       ((RVal.val 0).ltB v = true ∧ v.leB (RVal.val 1) = true)) :=
  ⟨rfl, chisq_pvalue_transform (fun _ => RVal.val 7) ["rs1"] [5] [RVal.val 1] _ rfl⟩

/-- Claim C3: for every accepted run of `betaprod` on a table whose first
phenotype has a `CHISQ1` column and whose second has only a `P2` column,
the output carries `BETAHAT1 = sqrt(CHISQ1 / N1) * DIR1` and
`BETAHAT2 = sqrt(chdtri(1, P2) / N2) * DIR2` elementwise (with the `N`
columns cast to float), and both `DIR` columns are removed. -/
theorem betaprod_betahat_formula (chdtri1 : RVal → RVal) (sqrtQ : ℚ → RVal)
    (snp : List String) (n1 d1 : List Int) (c1 : List RVal)
    (n2 d2 : List Int) (p2 : List RVal) (y : DF)
    (hrun : betaprod chdtri1 sqrtQ (mkBetaprodMixed snp n1 d1 c1 n2 d2 p2) = .ok y) :
    y = [(.SNP, .strC snp), (.N1, .rvalC (intToFloat n1)),
         (.BETAHAT1, .rvalC (betahat_of sqrtQ c1 (intToFloat n1) d1)),
         (.N2, .rvalC (intToFloat n2)),
         (.BETAHAT2, .rvalC (betahat_of sqrtQ (p2.map chdtri1) (intToFloat n2) d2))] := by
  unfold betaprod betaprod_one at hrun
  simp [mkBetaprodMixed, DF.getInt, DF.getStr, DF.getRVal, DF.find?, DF.set,
    DF.hasCol, DF.rename, DF.del] at hrun
  cases hrs : check_rsid snp with
  | error e => simp [hrs] at hrun
  | ok u0 =>
    cases u0
    simp only [hrs, except_bind_ok] at hrun
    cases hN1 : check_N n1 with
    | error e => simp [hN1] at hrun
    | ok u1 =>
      cases u1
      simp only [hN1, except_bind_ok] at hrun
      cases hd1 : check_dir d1 with
      | error e => simp [hd1] at hrun
      | ok u2 =>
        cases u2
        simp only [hd1, except_bind_ok] at hrun
        cases hc1 : check_chisq c1 with
        | error e => simp [hc1] at hrun
        | ok u3 =>
          cases u3
          simp only [hc1, except_bind_ok] at hrun
          cases hN2 : check_N n2 with
          | error e => simp [hN2] at hrun
          | ok u4 =>
            cases u4
            simp only [hN2, except_bind_ok] at hrun
            cases hd2 : check_dir d2 with
            | error e => simp [hd2] at hrun
            | ok u5 =>
              cases u5
              simp only [hd2, except_bind_ok] at hrun
              cases hp2 : check_pvalue p2 with
              | error e => simp [hp2] at hrun
              | ok u6 =>
                cases u6
                simp only [hp2, except_bind_ok, Except.ok.injEq] at hrun
                exact hrun.symm

/-- Claim C3 witness: a concrete accepted run of `betaprod`. -/
theorem betaprod_betahat_formula_witness :
    (betaprod (fun _ => RVal.val 7) (fun _ => RVal.val 0)
        (mkBetaprodMixed ["rs1"] [1] [1] [RVal.val 4] [1] [-1] [RVal.val 1]) =
      .ok [(.SNP, .strC ["rs1"]), (.N1, .rvalC (intToFloat [1])),
           (.BETAHAT1, .rvalC (betahat_of (fun _ => RVal.val 0) [RVal.val 4]
             (intToFloat [1]) [1])),
           (.N2, .rvalC (intToFloat [1])),
           (.BETAHAT2, .rvalC (betahat_of (fun _ => RVal.val 0)
             ([RVal.val 1].map (fun _ => RVal.val 7)) (intToFloat [1]) [-1]))]) ∧
    (([(ColName.SNP, Col.strC ["rs1"]), (ColName.N1, Col.rvalC (intToFloat [1])),
       (ColName.BETAHAT1, Col.rvalC (betahat_of (fun _ => RVal.val 0) [RVal.val 4]
         (intToFloat [1]) [1])),
       (ColName.N2, Col.rvalC (intToFloat [1])),
       (ColName.BETAHAT2, Col.rvalC (betahat_of (fun _ => RVal.val 0)
         ([RVal.val 1].map (fun _ => RVal.val 7)) (intToFloat [1]) [-1]))] : DF) =
      [(.SNP, .strC ["rs1"]), (.N1, .rvalC (intToFloat [1])),
       (.BETAHAT1, .rvalC (betahat_of (fun _ => RVal.val 0) [RVal.val 4]
         (intToFloat [1]) [1])),
       (.N2, .rvalC (intToFloat [1])),
       (.BETAHAT2, .rvalC (betahat_of (fun _ => RVal.val 0)
         ([RVal.val 1].map (fun _ => RVal.val 7)) (intToFloat [1]) [-1]))]) :=
  ⟨rfl, betaprod_betahat_formula (fun _ => RVal.val 7) (fun _ => RVal.val 0)
    ["rs1"] [1] [1] [RVal.val 4] [1] [-1] [RVal.val 1] _ rfl⟩

/-- Claim C10: on a table carrying both a `P` and a `CHISQ` column the two
parsers take opposite branches: `chisq` validates and transforms `P`
(renaming it `CHISQ`) while accepting an arbitrary, even invalid, `CHISQ`
column untouched (so `check_chisq` is never applied to it); `betaprod`
validates and consumes `CHISQ1`/`CHISQ2` while accepting an arbitrary,
even invalid, `P1` column untouched. -/
theorem conflict_branches_opposite (chdtri1 : RVal → RVal) (sqrtQ : ℚ → RVal)
    (p c p1 : List RVal) (hp : check_pvalue p = .ok ()) :
    chisq chdtri1 (mkChisqBoth p c) =
      .ok [(.SNP, .strC ["rs1"]), (.N, .rvalC [.val 1]),
           (.CHISQ, .rvalC c), (.CHISQ, .rvalC (p.map chdtri1))] ∧
    betaprod chdtri1 sqrtQ (mkBetaprodBoth p1) =
      .ok [(.SNP, .strC ["rs1"]), (.N1, .rvalC [.val 1]), (.P1, .rvalC p1),
           (.BETAHAT1, .rvalC (betahat_of sqrtQ [.val 4] (intToFloat [1]) [1])),
           (.N2, .rvalC [.val 1]),
           (.BETAHAT2, .rvalC (betahat_of sqrtQ [.val 9] (intToFloat [1]) [1]))] := by
  constructor
  · have hN : check_N [1] = .ok () := rfl
    have hrs : check_rsid ["rs1"] = .ok () := rfl
    unfold chisq
    simp [mkChisqBoth, DF.getInt, DF.getStr, DF.getRVal, DF.find?, DF.set,
      DF.hasCol, DF.rename, hN, hrs, hp, intToFloat]
  · rfl

/-- Claim C10 witness: a concrete run with an invalid `CHISQ` column for
`chisq` and an invalid `P1` column for `betaprod`, both accepted. -/
theorem conflict_branches_opposite_witness :
    check_pvalue [RVal.val 1] = .ok () ∧
    (chisq (fun _ => RVal.val 7) (mkChisqBoth [RVal.val 1] [RVal.val (-3)]) =
      .ok [(.SNP, .strC ["rs1"]), (.N, .rvalC [.val 1]),
           (.CHISQ, .rvalC [RVal.val (-3)]),
           (.CHISQ, .rvalC ([RVal.val 1].map (fun _ => RVal.val 7)))] ∧
    betaprod (fun _ => RVal.val 7) (fun _ => RVal.val 0)
        (mkBetaprodBoth [RVal.val 5]) =
      .ok [(.SNP, .strC ["rs1"]), (.N1, .rvalC [.val 1]),
           (.P1, .rvalC [RVal.val 5]),
           (.BETAHAT1, .rvalC (betahat_of (fun _ => RVal.val 0) [.val 4]
             (intToFloat [1]) [1])),
           (.N2, .rvalC [.val 1]),
           (.BETAHAT2, .rvalC (betahat_of (fun _ => RVal.val 0) [.val 9]
             (intToFloat [1]) [1]))]) :=
  ⟨rfl, conflict_branches_opposite (fun _ => RVal.val 7) (fun _ => RVal.val 0)
    [RVal.val 1] [RVal.val (-3)] [RVal.val 5] rfl⟩

end LdscParse
